import Mathlib

/-!
Verification of the liquidation-analysis pipeline
(`parse_aggregate.py`, `build_dataset.py`, `analyze_correlation.py`,
`binance_fetch_price.py`).  Each Python function used by the claims is
embedded as a Lean definition; machine floats are modelled by `ℚ`
(with `none : Option ℚ` standing for NaN / undefined cells), timestamps
by epoch seconds (`Nat`), and raised Python exceptions by `Except String`.
-/

deriving instance DecidableEq for Except

namespace Liq

/-! ### Character classes (Python `re` over ASCII text) -/

/-- Python regex `\s` on ASCII: space, tab, newline, carriage return,
vertical tab, form feed. -/
def isSpaceCh (c : Char) : Bool :=
  c = ' ' || c = '\t' || c = '\n' || c = '\r' || c = '\x0b' || c = '\x0c'

/-- Python regex `\w` on ASCII: letters, digits, underscore. -/
def isWordCh (c : Char) : Bool :=
  c.isAlphanum || c = '_'

/-- Case-insensitive character comparison (regex flag `re.I`). -/
def chEqCI (a b : Char) : Bool :=
  a.toLower = b.toLower

/-- Match a literal pattern case-insensitively at the head of the input,
returning the rest of the input on success. -/
def stripCaseless : List Char → List Char → Option (List Char)
  | [], cs => some cs
  | _ :: _, [] => none
  | p :: ps, c :: cs => if chEqCI p c then stripCaseless ps cs else none

/-- Match a literal pattern case-sensitively at the head of the input. -/
def stripExact : List Char → List Char → Option (List Char)
  | [], cs => some cs
  | _ :: _, [] => none
  | p :: ps, c :: cs => if p = c then stripExact ps cs else none

/-- Drop a (possibly empty) maximal run of whitespace: regex `\s*`. -/
def dropWs (cs : List Char) : List Char :=
  cs.dropWhile isSpaceCh

/-- Require at least one whitespace character, then drop the maximal
run: regex `\s+`. -/
def ws1 (cs : List Char) : Option (List Char) :=
  match cs with
  | [] => none
  | c :: rest => if isSpaceCh c then some (dropWs rest) else none

/-- Word boundary `\b` before a word character: start of string or a
preceding non-word character. -/
def boundaryBefore (prev : Option Char) : Bool :=
  match prev with
  | none => true
  | some c => !isWordCh c

/-- Word boundary `\b` after a word character: end of string or a
following non-word character. -/
def boundaryAfter (cs : List Char) : Bool :=
  match cs with
  | [] => true
  | c :: _ => !isWordCh c

/-! ### `SIDE_RE = \bLiquidated\s+(Long|Short)\b` with `re.I` -/

/-- Try the alternation `(Long|Short)` (case-insensitive) followed by a
word boundary; `Long` is attempted first, as in the regex. -/
def sideGroup (cs : List Char) : Option String :=
  match stripCaseless "long".data cs with
  | some rest => if boundaryAfter rest then some "long" else
      match stripCaseless "short".data cs with
      | some rest2 => if boundaryAfter rest2 then some "short" else none
      | none => none
  | none =>
      match stripCaseless "short".data cs with
      | some rest2 => if boundaryAfter rest2 then some "short" else none
      | none => none

/-- Attempt `SIDE_RE` at the current position (`prev` is the character
just before the position, for the leading `\b`). -/
def matchSideAt (prev : Option Char) (cs : List Char) : Option String :=
  if boundaryBefore prev then
    match stripCaseless "liquidated".data cs with
    | none => none
    | some rest =>
      match ws1 rest with
      | none => none
      | some rest2 => sideGroup rest2
  else none

/-- Leftmost search for `SIDE_RE` (re.search). -/
def sideSearchAux : Option Char → List Char → Option String
  | prev, [] => matchSideAt prev []
  | prev, c :: cs =>
    match matchSideAt prev (c :: cs) with
    | some s => some s
    | none => sideSearchAux (some c) cs

def sideSearch (cs : List Char) : Option String :=
  sideSearchAux none cs

/-! ### `AMOUNT_RE = :\s*(?:Buy|Sell)\s*\$([\d,]+(?:\.\d+)?)` (case-sensitive) -/

/-- The regex class `[\d,]`. -/
def isAmtCh (c : Char) : Bool :=
  c.isDigit || c = ','

/-- Attempt `AMOUNT_RE` at the current position; on success return the
capture split as (integer-and-comma run, optional fraction digits). -/
def matchAmountAt (cs : List Char) : Option (List Char × Option (List Char)) :=
  match cs with
  | ':' :: rest =>
    let r1 := dropWs rest
    match (stripExact "Buy".data r1).orElse (fun _ => stripExact "Sell".data r1) with
    | none => none
    | some r2 =>
      let r3 := dropWs r2
      match r3 with
      | '$' :: r4 =>
        let run := r4.takeWhile isAmtCh
        if run = [] then none
        else
          match r4.drop run.length with
          | '.' :: r5 =>
            let ds := r5.takeWhile Char.isDigit
            if ds = [] then some (run, none) else some (run, some ds)
          | _ => some (run, none)
      | _ => none
  | _ => none

/-- Leftmost search for `AMOUNT_RE`. -/
def amountSearch : List Char → Option (List Char × Option (List Char))
  | [] => none
  | c :: cs =>
    match matchAmountAt (c :: cs) with
    | some r => some r
    | none => amountSearch cs

/-! ### `SYMBOL_RE = \bon\s+([A-Z0-9_/:-]+)\s+at\b` with `re.I` -/

/-- The regex class `[A-Z0-9_/:-]` under `re.I` (letters of either
case, digits, and the listed punctuation). -/
def isSymCh (c : Char) : Bool :=
  c.isAlpha || c.isDigit || c = '_' || c = '-' || c = '/' || c = ':'

/-- Attempt `SYMBOL_RE` at the current position. -/
def matchSymbolAt (prev : Option Char) (cs : List Char) : Option String :=
  if boundaryBefore prev then
    match stripCaseless "on".data cs with
    | none => none
    | some rest =>
      match ws1 rest with
      | none => none
      | some rest2 =>
        let run := rest2.takeWhile isSymCh
        if run = [] then none
        else
          match ws1 (rest2.drop run.length) with
          | none => none
          | some r3 =>
            match stripCaseless "at".data r3 with
            | some r4 => if boundaryAfter r4 then some (String.mk run) else none
            | none => none
  else none

/-- Leftmost search for `SYMBOL_RE`. -/
def symbolSearchAux : Option Char → List Char → Option String
  | prev, [] => matchSymbolAt prev []
  | prev, c :: cs =>
    match matchSymbolAt prev (c :: cs) with
    | some s => some s
    | none => symbolSearchAux (some c) cs

def symbolSearch (cs : List Char) : Option String :=
  symbolSearchAux none cs

/-! ### `float()` on the stripped capture, and `parse_row` -/

/-- Numeric value of a digit string. -/
def natFromDigits (ds : List Char) : Nat :=
  ds.foldl (fun a c => 10 * a + (c.toNat - 48)) 0

/-- Python `float(capture.replace(",", ""))`: the integer part is the
capture run with commas removed, the fraction the optional digits after
the dot.  `float("")` (a capture consisting solely of commas, with no
fraction) raises `ValueError`. -/
def floatOfCapture (run : List Char) (frac : Option (List Char)) : Except String ℚ :=
  let digits := run.filter (fun c => c ≠ ',')
  match frac with
  | none =>
    if digits = [] then .error "could not convert string to float"
    else .ok (mkRat (Int.ofNat (natFromDigits digits)) 1)
  | some ds =>
    .ok (mkRat (Int.ofNat (natFromDigits digits * Nat.pow 10 ds.length + natFromDigits ds))
      (Nat.pow 10 ds.length))

/-- `parse_row` from `parse_aggregate.py`: returns `none` for a rejected
message ("(None, None, None)"), `some (side, amount_usd, symbol)` for an
accepted one, and `.error` when `float()` raises. -/
def parse_row (text : String) : Except String (Option (String × ℚ × Option String)) :=
  if text = "" then .ok none
  else
    match sideSearch text.data with
    | none => .ok none
    | some side =>
      match amountSearch text.data with
      | none => .ok none
      | some (run, frac) =>
        match floatOfCapture run frac with
        | .error e => .error e
        | .ok amt => .ok (some (side, amt, symbolSearch text.data))


/-! ### The caller-level symbol filter.

`main` runs `df["text"].str.contains(SYMBOL_FILTER, case=False, na=False)`;
with its default `regex=True` the filter string is a regular expression
searched case-insensitively anywhere in the raw text.  The fragment of
regex syntax modelled here (literal characters and the any-character
dot) is what the claims exercise; `compilePat` mirrors `re.compile`
on exactly that fragment and refuses every other metacharacter. -/

inductive PatUnit where
  | lit (c : Char)
  | dot
deriving DecidableEq

def PatUnit.matchesCh : PatUnit → Char → Bool
  | .lit a, c => chEqCI a c
  | .dot, c => c ≠ '\n'

/-- Match the pattern at the head of the input. -/
def headMatch : List PatUnit → List Char → Bool
  | [], _ => true
  | _ :: _, [] => false
  | u :: us, c :: cs => u.matchesCh c && headMatch us cs

/-- `re.search` for the pattern: a match starting anywhere. -/
def patSearch : List PatUnit → List Char → Bool
  | p, [] => headMatch p []
  | p, c :: cs => headMatch p (c :: cs) || patSearch p cs

/-- Regex metacharacters of Python `re`. -/
def isMetaCh (c : Char) : Bool :=
  c ∈ ['.', '^', '$', '*', '+', '?', '\x7b', '\x7d', '[', ']', '\\', '|', '(', ')']

/-- The fragment of `re.compile` used by the symbol filter: literal
characters and the dot; any other metacharacter is out of the modelled
fragment. -/
def compilePat (s : String) : Option (List PatUnit) :=
  s.data.mapM (fun c =>
    if c = '.' then some PatUnit.dot
    else if isMetaCh c then none
    else some (PatUnit.lit c))

/-- Modelled from the spec: "substring match against the full raw text,
case-insensitive" — case-insensitive pointwise equality at the head ... -/
def headEqCI : List Char → List Char → Bool
  | [], _ => true
  | _ :: _, [] => false
  | a :: ns, b :: hs => chEqCI a b && headEqCI ns hs

/-- Modelled from the spec: the raw text contains the filter string as a
literal substring, compared case-insensitively. -/
def substrCI : List Char → List Char → Bool
  | ns, [] => headEqCI ns []
  | ns, c :: cs => headEqCI ns (c :: cs) || substrCI ns cs

/-! ### Interval aggregation (`main` of `parse_aggregate.py`)

`df.resample(rule)` with rule `1H`/`1D` uses pandas defaults
`closed=left, label=left, origin=start_day`: each event is assigned
to the bucket `w * (t / w)` (the flooring of its timestamp at the
interval width), the bucket is labelled by that same opening instant,
and the resampled series of one side enumerates every bucket from the
first to the last event of that side, zero-filling empty buckets
(`sum` of an empty bin is 0.0, `count` is 0).  The `DataFrame`
constructor then aligns the two sides on the sorted union of their
bucket indexes and `fillna(0.0)` zero-fills the cells of a bucket
missing from one side.  Summation over `ℚ` is exact, so the
`sort_index()` the code performs before resampling cannot change any
sum and is not re-modelled. -/

/-- A parsed liquidation event as it sits in the dataframe. -/
structure Ev where
  t : Nat
  side : String
  usd : ℚ
deriving DecidableEq

/-- One output row of `liqs_<rule>.csv`. -/
structure OutRow where
  t : Nat
  long_liq_usd : ℚ
  short_liq_usd : ℚ
  long_count : Nat
  short_count : Nat
deriving DecidableEq

/-- The bucket (left boundary) containing timestamp `t`. -/
def floorW (w t : Nat) : Nat := w * (t / w)

def minL (x : Nat) (xs : List Nat) : Nat := xs.foldl Nat.min x

def maxL (x : Nat) (xs : List Nat) : Nat := xs.foldl Nat.max x

/-- The buckets enumerated by resampling one side: every bucket from
the bucket of the earliest event to the bucket of the latest one. -/
def spanBins (w : Nat) : List Nat → List Nat
  | [] => []
  | t :: r =>
    let lo := floorW w (minL t r)
    let hi := floorW w (maxL t r)
    (List.range ((hi - lo) / w + 1)).map (fun i => lo + w * i)

/-- Sorted union of two sorted bucket lists (the `DataFrame` index
alignment). -/
def mergeD : List Nat → List Nat → List Nat
  | [], ys => ys
  | xs, [] => xs
  | x :: xs, y :: ys =>
    if x < y then x :: mergeD xs (y :: ys)
    else if y < x then y :: mergeD (x :: xs) ys
    else x :: mergeD xs ys
termination_by a b => a.length + b.length

/-- The events of side `sd` falling in bucket `b`. -/
def inBucket (w : Nat) (b : Nat) (evs : List Ev) : List Ev :=
  evs.filter (fun e => floorW w e.t = b)

/-- The output row of one bucket label: per-side sums and counts over
the events falling in the bucket (`fillna(0.0)` gives the zeros when a
side has no event there). -/
def bucketRow (w : Nat) (longs shorts : List Ev) (b : Nat) : OutRow :=
  { t := b
    long_liq_usd := ((inBucket w b longs).map (fun e => e.usd)).sum
    short_liq_usd := ((inBucket w b shorts).map (fun e => e.usd)).sum
    long_count := (inBucket w b longs).length
    short_count := (inBucket w b shorts).length }

/-- Lines 85–96 of `parse_aggregate.py`: per-side resampled sums and
counts, aligned on the union of the two bucket indexes, `fillna(0.0)`. -/
def aggregate (w : Nat) (evs : List Ev) : List OutRow :=
  let longs := evs.filter (fun e => e.side = "long")
  let shorts := evs.filter (fun e => e.side = "short")
  (mergeD (spanBins w (longs.map (fun e => e.t)))
          (spanBins w (shorts.map (fun e => e.t)))).map (bucketRow w longs shorts)

/-- `df["text"].apply(parse_row)`: every row is parsed in order; the
first `ValueError` raised by `float()` aborts the stage. -/
def parseRows (rows : List (Nat × String)) :
    Except String (List (Nat × String × Option (String × ℚ × Option String))) :=
  rows.mapM (fun r => (parse_row r.2).map (fun p => (r.1, r.2, p)))

/-- Lines 65–68: `dropna(subset=["side", "amount_usd"])` keeps the
rows `parse_row` accepted, then the non-empty `SYMBOL_FILTER`
(`none` models the empty, falsy one) keeps the rows whose raw text the
compiled pattern matches case-insensitively. -/
def survivors (filt : Option (List PatUnit))
    (parsed : List (Nat × String × Option (String × ℚ × Option String))) :
    List (Nat × String × String × ℚ × Option String) :=
  let kept := parsed.filterMap (fun x =>
    match x.2.2 with
    | some ev => some (x.1, x.2.1, ev)
    | none => none)
  match filt with
  | none => kept
  | some p => kept.filter (fun x => patSearch p x.2.1.data)

/-- `main` of `parse_aggregate.py` as a function of the interval-width
setting (the raw `AGG_INTERVAL` value, upper-cased on load), the
compiled symbol filter, and the input rows `(timestamp_utc, text)`.
The result is the written csv file (name, rows) or the raised
exception.  Timestamps arrive already parsed; the `errors="coerce"`
conversion is the identity on them. -/
def aggMain (interval : String) (filt : Option (List PatUnit))
    (rows : List (Nat × String)) : Except String (String × List OutRow) :=
  match parseRows rows with
  | .error e => .error e
  | .ok parsed =>
    let kept2 := survivors filt parsed
    if kept2 = [] then .ok ("liqs_" ++ interval.toUpper ++ ".csv", [])
    else
      match (if interval.toUpper = "1H" then some (3600, "1H")
             else if interval.toUpper = "1D" then some (86400, "1D")
             else none : Option (Nat × String)) with
      | none => .error "AGG_INTERVAL must be 1H or 1D"
      | some (w, rule) =>
        .ok ("liqs_" ++ rule ++ ".csv",
          aggregate w (kept2.map (fun x => ⟨x.1, x.2.2.1, x.2.2.2.1⟩)))

/-- Line 77 of `binance_fetch_price.py`: the price bar is labelled by
its `close_time` (milliseconds).  Binance reports the close time of the
10:00–11:00 UTC 1-hour bar as 10:59:59.999. -/
def binanceBarLabel (close_time_ms : Nat) : Nat := close_time_ms

/-! ### `build_dataset.py`

The joined table and its derived columns.  Cells that pandas fills
with NaN (the shifted neighbours of boundary rows) are `Option ℚ`
before the `dropna`; all claims involve non-zero close prices, so the
`ℚ` division (whereas a zero close would give pandas an inf) is only
exercised on non-zero denominators. -/

/-- One row of `liqs_<rule>.csv` as read back (counts come back as
numbers). -/
structure LiqRow where
  t : Nat
  long_liq_usd : ℚ
  short_liq_usd : ℚ
  long_count : ℚ
  short_count : ℚ
deriving DecidableEq

/-- One row of `btc_price.csv`. -/
structure PxRow where
  t : Nat
  open_ : ℚ
  high : ℚ
  low : ℚ
  close : ℚ
  volume : ℚ
deriving DecidableEq

/-- One row of the inner-joined frame (after the price projection to
`timestamp_utc, close, volume`). -/
structure JRow where
  t : Nat
  long_liq_usd : ℚ
  short_liq_usd : ℚ
  long_count : ℚ
  short_count : ℚ
  close : ℚ
  volume : ℚ
deriving DecidableEq

/-- One surviving row of `dataset.csv` (all derived cells defined,
since boundary rows are dropped). -/
structure DRow where
  t : Nat
  long_liq_usd : ℚ
  short_liq_usd : ℚ
  long_count : ℚ
  short_count : ℚ
  close : ℚ
  volume : ℚ
  net_liq_usd : ℚ
  liq_total_usd : ℚ
  close_prev : ℚ
  ret : ℚ
  close_next : ℚ
  ret_next : ℚ
deriving DecidableEq

def insertByKey {α : Type} (key : α → Nat) (x : α) : List α → List α
  | [] => [x]
  | y :: ys => if key x ≤ key y then x :: y :: ys else y :: insertByKey key x ys

/-- `sort_values("timestamp_utc")` (ties cannot arise on these keys). -/
def sortByKey {α : Type} (key : α → Nat) (l : List α) : List α :=
  l.foldr (insertByKey key) []

/-- `pd.merge(liq, px, on="timestamp_utc", how="inner")` with both
sides sorted: exact-timestamp inner join, row order following the left
keys. -/
def innerJoin (liq : List LiqRow) (px : List PxRow) : List JRow :=
  let pxS := sortByKey (fun p => p.t) px
  (sortByKey (fun l => l.t) liq).filterMap (fun l =>
    (pxS.find? (fun p => p.t = l.t)).map (fun p =>
      { t := l.t, long_liq_usd := l.long_liq_usd,
        short_liq_usd := l.short_liq_usd, long_count := l.long_count,
        short_count := l.short_count, close := p.close, volume := p.volume }))

/-- `df["close"].shift(1)` restricted to a column: NaN in the first
cell, the previous close elsewhere. -/
def prevCol (cs : List ℚ) : List (Option ℚ) :=
  match cs with
  | [] => []
  | _ :: _ => none :: cs.dropLast.map some

/-- `df["close"].shift(-1)`: the next close, NaN in the last cell. -/
def nextCol (cs : List ℚ) : List (Option ℚ) :=
  match cs with
  | [] => []
  | _ :: rest => rest.map some ++ [none]

/-- Lines 47–57 of `build_dataset.py`: the derived columns
`net_liq_usd`, `liq_total_usd`, `close_prev`, `ret`, `close_next`,
`ret_next` over the joined, time-sorted table, followed by
`dropna(subset=["ret", "ret_next"])`. -/
def deriveRows (df : List JRow) : List DRow :=
  let cs := df.map (fun r => r.close)
  (df.zip ((prevCol cs).zip (nextCol cs))).filterMap (fun x =>
    match x.2.1, x.2.2 with
    | some p, some nx => some
      { t := x.1.t, long_liq_usd := x.1.long_liq_usd,
        short_liq_usd := x.1.short_liq_usd, long_count := x.1.long_count,
        short_count := x.1.short_count, close := x.1.close,
        volume := x.1.volume,
        net_liq_usd := x.1.short_liq_usd - x.1.long_liq_usd,
        liq_total_usd := x.1.short_liq_usd + x.1.long_liq_usd,
        close_prev := p, ret := (x.1.close - p) / p,
        close_next := nx, ret_next := (nx - x.1.close) / x.1.close }
    | _, _ => none)

/-- Line 52, `df["ret"]`, as a column over the joined table: the
return from the previous row in row order, NaN in the first cell. -/
def retColumn (df : List JRow) : List (Option ℚ) :=
  (df.zip (prevCol (df.map (fun r => r.close)))).map (fun x =>
    x.2.map (fun p => (x.1.close - p) / p))

/-- Line 54, `df["ret_next"]`: the return to the next row in row
order, NaN in the last cell. -/
def retNextColumn (df : List JRow) : List (Option ℚ) :=
  (df.zip (nextCol (df.map (fun r => r.close)))).map (fun x =>
    x.2.map (fun nx => (nx - x.1.close) / x.1.close))

/-- The column header of the empty-join early return: exactly the
merged columns, no derived ones. -/
def cols7 : List String :=
  ["timestamp_utc", "long_liq_usd", "short_liq_usd", "long_count",
   "short_count", "close", "volume"]

/-- The column header of the non-empty output, in creation order. -/
def cols13 : List String :=
  cols7 ++ ["net_liq_usd", "liq_total_usd", "close_prev", "ret",
            "close_next", "ret_next"]

/-- `main` of `build_dataset.py`: the module-level `RULE` validity
check, the exact-timestamp inner join, the empty-join early return
(which writes the frame before any derived column exists), and
otherwise the derived columns and the boundary-row drop.  The result
is the written `dataset.csv` as (header, rows). -/
def buildMain (INTERVAL : String) (liq : List LiqRow) (px : List PxRow) :
    Except String (List String × List DRow) :=
  if INTERVAL = "1H" ∨ INTERVAL = "1D" then
    let df := innerJoin liq px
    if df = [] then .ok (cols7, [])
    else .ok (cols13, deriveRows (sortByKey (fun r => r.t) df))
  else .error "AGG_INTERVAL must be 1H or 1D"

/-! ### `analyze_correlation.py` -/

/-- The `needed` column set of `analyze_correlation.py`, enumerated in
sorted order (the order `sorted(missing)` reports). -/
def NEEDED : List String :=
  ["close", "liq_total_usd", "long_count", "long_liq_usd",
   "net_liq_usd", "ret_next", "short_count", "short_liq_usd"]

/-- Lines 29–35 of `analyze_correlation.py`: the schema check; a
non-empty `missing` raises `ValueError` naming the sorted missing
columns. -/
def analyzeSchemaCheck (cols : List String) : Except (List String) Unit :=
  let missing := NEEDED.filter (fun c => ¬ cols.contains c)
  if missing = [] then .ok () else .error missing

/-- `mask = s1.notna() & s2.notna()` followed by restriction to the
masked rows: the pairs where both the predictor and the target are
defined. -/
def qualifying (xs ys : List (Option ℚ)) : List (ℚ × ℚ) :=
  (xs.zip ys).filterMap (fun p =>
    match p.1, p.2 with
    | some a, some b => some (a, b)
    | _, _ => none)

def meanQ (l : List ℚ) : ℚ := l.sum / l.length

/-- Sum of squared deviations from the mean; zero exactly on constant
(or short) samples, which is when the sample standard deviation
vanishes. -/
def ssd (l : List ℚ) : ℚ :=
  (l.map (fun x => (x - meanQ l) * (x - meanQ l))).sum

def covSum (ps : List (ℚ × ℚ)) : ℚ :=
  (ps.map (fun p =>
    (p.1 - meanQ (ps.map Prod.fst)) * (p.2 - meanQ (ps.map Prod.snd)))).sum

/-- `Series.corr` yields a number exactly when at least two pairs are
present and neither sample is constant; otherwise the float result is
NaN (0/0 from a vanishing standard deviation, or the `ddof=1` variance
of fewer than two points). -/
def corrHasValue (ps : List (ℚ × ℚ)) : Bool :=
  decide (2 ≤ ps.length) && !decide (ssd (ps.map Prod.fst) = 0)
    && !decide (ssd (ps.map Prod.snd) = 0)

/-- `s1.corr(s2, method="pearson")`: NaN is `none`; the defined value
is the covariance over the product of standard deviations. -/
noncomputable def pearsonOf (ps : List (ℚ × ℚ)) : Option ℝ :=
  if corrHasValue ps then
    some ((covSum ps : ℝ) /
      (Real.sqrt (ssd (ps.map Prod.fst)) * Real.sqrt (ssd (ps.map Prod.snd))))
  else none

/-- Average rank (ties get the mean of their positions, 1-based), the
convention of `method="spearman"`. -/
def rankOf (l : List ℚ) (x : ℚ) : ℚ :=
  (l.countP (fun y => y < x) : ℚ) + ((l.countP (fun y => y = x) : ℚ) + 1) / 2

def ranksOf (l : List ℚ) : List ℚ := l.map (rankOf l)

/-- `s1.corr(s2, method="spearman")`: Pearson correlation of the
average ranks. -/
noncomputable def spearmanOf (ps : List (ℚ × ℚ)) : Option ℝ :=
  pearsonOf ((ranksOf (ps.map Prod.fst)).zip (ranksOf (ps.map Prod.snd)))

/-- One row of `correlation_summary.csv`. -/
structure CorrRow where
  pearson : Option ℝ
  spearman : Option ℝ
  n : Nat

/-- Lines 44–55 of `analyze_correlation.py` for one predictor column
against `ret_next`: the explicit `mask.sum() == 0` NaN branch,
otherwise the two coefficients, and `n = int(mask.sum())` either way. -/
noncomputable def corrRowOf (pred target : List (Option ℚ)) : CorrRow :=
  let ps := qualifying pred target
  if ps = [] then { pearson := none, spearman := none, n := 0 }
  else { pearson := pearsonOf ps, spearman := spearmanOf ps, n := ps.length }

/-! ### Event study -/

def insertLe (x : ℚ) : List ℚ → List ℚ
  | [] => [x]
  | y :: ys => if x ≤ y then x :: y :: ys else y :: insertLe x ys

def sortQ (l : List ℚ) : List ℚ := l.foldr insertLe []

/-- `Series.quantile(0.95)` (linear interpolation on the sorted
sample). -/
def quantile95 (l : List ℚ) : ℚ :=
  let s := sortQ l
  let h : ℚ := (19 / 20) * ((s.length : ℚ) - 1)
  let lo := h.floor.toNat
  let hi := h.ceil.toNat
  s.getD lo 0 + (s.getD hi 0 - s.getD lo 0) * (h - (lo : ℚ))

/-- `q95_nonzero` of `analyze_correlation.py`: `fillna(0.0)`, keep the
strictly positive values, and return their 95th percentile — or
`float("inf")`, modelled as `none` (an unreachable threshold), when
none are positive. -/
def q95_nonzero (xs : List (Option ℚ)) : Option ℚ :=
  let pos := (xs.map (fun v => v.getD 0)).filter (fun v => 0 < v)
  if pos = [] then none else some (quantile95 pos)

/-- `df[col] >= thr if np.isfinite(thr) else False`: with an infinite
threshold the whole flag column is the scalar `False`; otherwise a
NaN cell compares `False` and a value fires at or above the
threshold. -/
def spikeFlags (thr : Option ℚ) (col : List (Option ℚ)) : List Bool :=
  match thr with
  | none => List.replicate col.length false
  | some th => col.map (fun v =>
      match v with
      | none => false
      | some x => th ≤ x)

/-- The fixed horizon sets of the event study. -/
def horizons (INTERVAL : String) : List Nat :=
  if INTERVAL = "1H" then [1, 3, 6, 12, 24] else [1, 2, 3, 5, 10]

/-- `forward_return(close, k)` at row `i`: NaN (from `shift(-k)`) past
the end of the column. -/
def forwardReturn (closes : List ℚ) (i k : Nat) : Option ℚ :=
  if i + k < closes.length then
    some ((closes.getD (i + k) 0 - closes.getD i 0) / closes.getD i 0)
  else none

/-- One row of `event_study_summary.csv` for a single horizon. -/
structure EvRow where
  n_events : Nat
  mean : Option ℚ
  median : Option ℚ
  hit_rate_pos : Option ℚ
deriving DecidableEq

/-- `Series.median`: middle element, or mean of the two middle
elements, of the sorted sample. -/
def medianQ (l : List ℚ) : ℚ :=
  let s := sortQ l
  if s.length % 2 = 1 then s.getD (s.length / 2) 0
  else (s.getD (s.length / 2 - 1) 0 + s.getD (s.length / 2) 0) / 2

/-- The body of `summarize_events` for one horizon `k`: the flagged
row indexes, their forward returns with NaNs dropped, and either the
`n_events=0` row with NaN statistics or the count/mean/median/positive
fraction. -/
def summarizeAt (closes : List ℚ) (flags : List Bool) (k : Nat) : EvRow :=
  let idx := (List.range flags.length).filter (fun i => flags.getD i false)
  let vals := idx.filterMap (fun i => forwardReturn closes i k)
  if vals = [] then
    { n_events := 0, mean := none, median := none, hit_rate_pos := none }
  else
    { n_events := vals.length,
      mean := some (vals.sum / vals.length),
      median := some (medianQ vals),
      hit_rate_pos := some (((vals.filter (fun v => 0 < v)).length : ℚ) / vals.length) }


/-! ## Claim theorems -/

/-- C1: false on the code, and the code contradicts its own purpose.
The aggregation stage labels each bucket with the bucket's OPENING
instant (pandas `resample` defaults `closed="left", label="left"`):
the two scenario messages at 10:05 and 10:40 land in one bucket
labelled 10:00 (36000 s), not the claimed closing instant 11:00
(39600 s).  The price source labels its bars by the Binance
`close_time` (10:59:59.999 for this bar), which coincides with
neither, so the later exact-timestamp join can never match. -/
theorem claim_C1 :
    aggMain "1H" (some [PatUnit.lit 'B', PatUnit.lit 'T', PatUnit.lit 'C'])
      [(36300, "Liquidated Long: Buy $12,500 on BTCUSDT at 60,000"),
       (38400, "Liquidated Short: Sell $8,000 on BTCUSDT at 60,000")]
      = .ok ("liqs_1H.csv", [⟨36000, 12500, 8000, 1, 1⟩]) ∧
    (36000 : Nat) ≠ 39600 ∧
    binanceBarLabel 39599999 ≠ 36000 * 1000 ∧
    binanceBarLabel 39599999 ≠ 39600 * 1000 := by
  refine ⟨?_, by decide, by decide, by decide⟩
  with_unfolding_all rfl

/-- C2 counterexample: two long events at 10:05 and 12:40 under 1-hour
bucketing produce an output containing the zero-filled bucket 11:00,
whose `long_count + short_count` is 0 — empty intervals inside a
side's span are emitted, not omitted. -/
theorem claim_C2_counterexample :
    aggMain "1H" none
      [(36300, "Liquidated Long: Buy $100"), (45600, "Liquidated Long: Buy $50")]
      = .ok ("liqs_1H.csv",
        [⟨36000, 100, 0, 1, 0⟩, ⟨39600, 0, 0, 0, 0⟩, ⟨43200, 50, 0, 1, 0⟩]) ∧
    (⟨39600, 0, 0, 0, 0⟩ : OutRow).long_count
      + (⟨39600, 0, 0, 0, 0⟩ : OutRow).short_count = 0 := by
  refine ⟨?_, by decide⟩
  with_unfolding_all rfl

/-- C3: false on the code, which contradicts the spec's EmptyResult
contract.  On an empty join `build_dataset.py` returns early and
writes the table with only the seven joined columns — none of
`net_liq_usd`, `liq_total_usd`, `ret`, `ret_next` — and the
correlation stage's schema check then raises naming the sorted
missing columns instead of handling the empty input. -/
theorem claim_C3 :
    buildMain "1H" [⟨36000, 5, 7, 1, 1⟩] [⟨39600, 0, 0, 0, 100, 3⟩]
      = .ok (cols7, []) ∧
    cols7.contains "net_liq_usd" = false ∧
    cols7.contains "liq_total_usd" = false ∧
    cols7.contains "ret" = false ∧
    cols7.contains "ret_next" = false ∧
    analyzeSchemaCheck cols7 = .error ["liq_total_usd", "net_liq_usd", "ret_next"] := by
  refine ⟨?_, by with_unfolding_all rfl, by with_unfolding_all rfl,
    by with_unfolding_all rfl, by with_unfolding_all rfl, by with_unfolding_all rfl⟩
  with_unfolding_all rfl

/-- C4 counterexample: on `"Liquidated Long: Buy $,"` the side phrase
matches and `AMOUNT_RE` matches with capture `","`, which strips to
the empty string; `float("")` raises `ValueError`, so the message is
neither emitted nor rejected — `parse_row` raises. -/
theorem claim_C4_counterexample :
    sideSearch "Liquidated Long: Buy $,".data = some "long" ∧
    amountSearch "Liquidated Long: Buy $,".data = some ([','], none) ∧
    parse_row "Liquidated Long: Buy $," = .error "could not convert string to float" := by
  refine ⟨?_, ?_, ?_⟩ <;> with_unfolding_all rfl

/-- C7 counterexample: with the invalid interval "2H" and no surviving
events the aggregation stage raises nothing and writes the empty
output file `liqs_2H.csv`; and with a message whose amount capture is
unparsable it raises the parse-time `ValueError`, not a configuration
error — so the configuration error is not raised before processing
begins. -/
theorem claim_C7_counterexample :
    aggMain "2H" none [] = .ok ("liqs_2H.csv", []) ∧
    aggMain "2H" none [(36300, "Liquidated Long: Buy $,")]
      = .error "could not convert string to float" := by
  refine ⟨?_, ?_⟩ <;> with_unfolding_all rfl

/-- C8 counterexample: the filter string is passed to
`str.contains` with its default `regex=True`, so the filter `"."`
(compiled: the any-character dot) keeps a message containing no
literal dot at all — substring containment would reject it. -/
theorem claim_C8_counterexample :
    compilePat "." = some [PatUnit.dot] ∧
    aggMain "1H" (some [PatUnit.dot]) [(36300, "Liquidated Long: Buy $100")]
      = .ok ("liqs_1H.csv", [⟨36000, 100, 0, 1, 0⟩]) ∧
    substrCI ".".data "Liquidated Long: Buy $100".data = false := by
  refine ⟨?_, ?_, ?_⟩ <;> with_unfolding_all rfl

/-- C10: `AMOUNT_RE` is case-sensitive while `SIDE_RE` is not — the
lower-cased message still yields the side but no amount, hence is
rejected, while the capitalised `Buy` variant is accepted. -/
theorem claim_C10 :
    parse_row "liquidated long: buy $100" = .ok none ∧
    sideSearch "liquidated long: buy $100".data = some "long" ∧
    parse_row "liquidated long: Buy $100" = .ok (some ("long", 100, none)) := by
  refine ⟨?_, ?_, ?_⟩ <;> with_unfolding_all rfl


lemma getD_replicate_false : ∀ (n i : Nat), (List.replicate n false).getD i false = false := by
  intro n
  induction n with
  | zero => intro i; rfl
  | succ n ih =>
    intro i
    cases i with
    | zero => rfl
    | succ j => exact ih j

/-- C9: on a joined, time-sorted 3-row table with close prices
100, 110, 99, the `ret` column is [NaN, 0.10, −0.10], the `ret_next`
column is [0.10, −0.10, NaN] (row-order adjacency), and after the
`dropna` exactly the middle row survives, with its derived cells. -/
theorem claim_C9 (j1 j2 j3 : JRow)
    (h1 : j1.close = 100) (h2 : j2.close = 110) (h3 : j3.close = 99) :
    retColumn [j1, j2, j3] = [none, some (1/10), some (-(1/10))] ∧
    retNextColumn [j1, j2, j3] = [some (1/10), some (-(1/10)), none] ∧
    deriveRows [j1, j2, j3] =
      [{ t := j2.t, long_liq_usd := j2.long_liq_usd,
         short_liq_usd := j2.short_liq_usd, long_count := j2.long_count,
         short_count := j2.short_count, close := 110, volume := j2.volume,
         net_liq_usd := j2.short_liq_usd - j2.long_liq_usd,
         liq_total_usd := j2.short_liq_usd + j2.long_liq_usd,
         close_prev := 100, ret := 1/10, close_next := 99,
         ret_next := -(1/10) }] := by
  refine ⟨?_, ?_, ?_⟩ <;>
    simp [retColumn, retNextColumn, deriveRows, prevCol, nextCol,
          List.zip, List.zipWith, h1, h2, h3] <;>
    norm_num

/-- C9 witness at a fully concrete 3-row joined table. -/
theorem claim_C9_witness :
    (⟨0, 1, 2, 3, 4, 100, 1⟩ : JRow).close = 100 ∧
    (⟨3600, 5, 6, 7, 8, 110, 1⟩ : JRow).close = 110 ∧
    (⟨7200, 9, 10, 11, 12, 99, 1⟩ : JRow).close = 99 ∧
    deriveRows [⟨0, 1, 2, 3, 4, 100, 1⟩, ⟨3600, 5, 6, 7, 8, 110, 1⟩,
                ⟨7200, 9, 10, 11, 12, 99, 1⟩] =
      [⟨3600, 5, 6, 7, 8, 110, 1, 1, 11, 100, 1/10, 99, -(1/10)⟩] := by
  have h := claim_C9 ⟨0, 1, 2, 3, 4, 100, 1⟩ ⟨3600, 5, 6, 7, 8, 110, 1⟩
    ⟨7200, 9, 10, 11, 12, 99, 1⟩ rfl rfl rfl
  refine ⟨rfl, rfl, rfl, ?_⟩
  rw [h.2.2]
  norm_num

/-- C5: a spike predictor column with no strictly positive
observations — all-zero and zero-row columns alike — yields the
unreachable threshold `float("inf")`, an all-false flag column, and,
at every horizon of the configured horizon set, an event-study row
with `n_events = 0` and undefined mean, median and positive
fraction. -/
theorem claim_C5 (INTERVAL : String) (col : List (Option ℚ))
    (closes : List ℚ) (k : Nat) (_hk : k ∈ horizons INTERVAL)
    (hcol : ∀ v ∈ col, v.getD 0 ≤ 0) :
    q95_nonzero col = none ∧
    summarizeAt closes (spikeFlags (q95_nonzero col) col) k
      = { n_events := 0, mean := none, median := none, hit_rate_pos := none } := by
  have hpos : (col.map (fun v => v.getD 0)).filter (fun v => decide (0 < v)) = [] := by
    rw [List.filter_eq_nil_iff]
    intro a ha
    obtain ⟨v, hv, rfl⟩ := List.mem_map.mp ha
    simpa using not_lt.mpr (hcol v hv)
  have hq : q95_nonzero col = none := by
    unfold q95_nonzero
    simp only [hpos]
    rfl
  refine ⟨hq, ?_⟩
  rw [hq]
  have hidx : (List.range (spikeFlags none col).length).filter
      (fun i => (spikeFlags none col).getD i false) = [] := by
    rw [List.filter_eq_nil_iff]
    intro i _
    simp [spikeFlags, getD_replicate_false]
  unfold summarizeAt
  simp only [hidx, List.filterMap_nil]
  rfl

/-- C5 witness: the all-zero (with a NaN) column under 1-hour
horizons. -/
theorem claim_C5_witness :
    (1 ∈ horizons "1H") ∧
    (∀ v ∈ ([some 0, none] : List (Option ℚ)), v.getD 0 ≤ 0) ∧
    q95_nonzero [some 0, none] = none ∧
    summarizeAt [1, 2] (spikeFlags (q95_nonzero [some 0, none]) [some 0, none]) 1
      = { n_events := 0, mean := none, median := none, hit_rate_pos := none } := by
  have hk : (1 : Nat) ∈ horizons "1H" := by simp [horizons]
  have hc : ∀ v ∈ ([some 0, none] : List (Option ℚ)), v.getD 0 ≤ 0 := by
    intro v hv
    fin_cases hv <;> norm_num
  obtain ⟨ha, hb⟩ := claim_C5 "1H" [some 0, none] [1, 2] 1 hk hc
  exact ⟨hk, hc, ha, hb⟩


lemma sum_of_const {c : ℚ} : ∀ {l : List ℚ}, (∀ x ∈ l, x = c) → l.sum = l.length * c := by
  intro l
  induction l with
  | nil => simp
  | cons a as ih =>
    intro h
    have ha : a = c := h a (List.mem_cons_self a as)
    rw [List.sum_cons, ih (fun x hx => h x (List.mem_cons_of_mem a hx)), ha,
      List.length_cons]
    push_cast
    ring

lemma meanQ_const {l : List ℚ} {c : ℚ} (hne : l ≠ []) (h : ∀ x ∈ l, x = c) :
    meanQ l = c := by
  unfold meanQ
  rw [sum_of_const h]
  have hl : (l.length : ℚ) ≠ 0 := by
    have : l.length ≠ 0 := fun h0 => hne (List.length_eq_zero.mp h0)
    exact_mod_cast this
  field_simp

lemma ssd_const {l : List ℚ} {c : ℚ} (h : ∀ x ∈ l, x = c) : ssd l = 0 := by
  cases hl : l with
  | nil => simp [ssd, hl]
  | cons a as =>
    subst hl
    unfold ssd
    apply List.sum_eq_zero
    intro x hx
    obtain ⟨y, hy, rfl⟩ := List.mem_map.mp hx
    rw [h y hy, meanQ_const (List.cons_ne_nil a as) h]
    ring

lemma corrHasValue_false_of_const {ps : List (ℚ × ℚ)} {c : ℚ}
    (h : ∀ p ∈ ps, p.1 = c) : corrHasValue ps = false := by
  have hssd : ssd (ps.map Prod.fst) = 0 := by
    apply ssd_const (c := c)
    intro x hx
    obtain ⟨p, hp, rfl⟩ := List.mem_map.mp hx
    exact h p hp
  simp [corrHasValue, hssd]

lemma pearsonOf_none_of_const {ps : List (ℚ × ℚ)} {c : ℚ}
    (h : ∀ p ∈ ps, p.1 = c) : pearsonOf ps = none := by
  unfold pearsonOf
  rw [corrHasValue_false_of_const h]
  rfl

lemma spearmanOf_none_of_const {ps : List (ℚ × ℚ)} {c : ℚ}
    (h : ∀ p ∈ ps, p.1 = c) : spearmanOf ps = none := by
  unfold spearmanOf
  apply pearsonOf_none_of_const (c := rankOf (ps.map Prod.fst) c)
  intro p hp
  obtain ⟨a, b⟩ := p
  have ha : a ∈ ranksOf (ps.map Prod.fst) := (List.of_mem_zip hp).1
  simp only [ranksOf] at ha
  obtain ⟨y, hy, rfl⟩ := List.mem_map.mp ha
  obtain ⟨q, hq, rfl⟩ := List.mem_map.mp hy
  simp only
  rw [h q hq]

/-- C6: for a predictor column constant across all qualifying rows, or
with zero qualifying rows, both the Pearson and the Spearman
coefficient come out as the explicit NaN marker, never a number (in
particular never zero) and never an exception, while `n` still reports
the count of qualifying rows. -/
theorem claim_C6 (pred target : List (Option ℚ))
    (h : qualifying pred target = [] ∨
         ∃ c, ∀ p ∈ qualifying pred target, p.1 = c) :
    (corrRowOf pred target).pearson = none ∧
    (corrRowOf pred target).spearman = none ∧
    (corrRowOf pred target).n = (qualifying pred target).length := by
  by_cases hps : qualifying pred target = []
  · unfold corrRowOf
    rw [if_pos hps, hps]
    exact ⟨rfl, rfl, rfl⟩
  · obtain h | ⟨c, hc⟩ := h
    · exact absurd h hps
    · unfold corrRowOf
      rw [if_neg hps]
      exact ⟨pearsonOf_none_of_const hc, spearmanOf_none_of_const hc, rfl⟩

/-- C6 witness: the constant predictor column `[5, 5]`. -/
theorem claim_C6_witness :
    (∃ c, ∀ p ∈ qualifying [some 5, some 5] [some 1, some 2], p.1 = c) ∧
    (corrRowOf [some 5, some 5] [some 1, some 2]).pearson = none ∧
    (corrRowOf [some 5, some 5] [some 1, some 2]).spearman = none ∧
    (corrRowOf [some 5, some 5] [some 1, some 2]).n = 2 := by
  have hqual : qualifying [some 5, some 5] [some 1, some 2] = [(5, 1), (5, 2)] := by
    with_unfolding_all rfl
  have hc : ∀ p ∈ qualifying [some 5, some 5] [some 1, some 2], p.1 = (5 : ℚ) := by
    rw [hqual]
    intro p hp
    fin_cases hp <;> rfl
  obtain ⟨ha, hb, hn⟩ := claim_C6 [some 5, some 5] [some 1, some 2] (Or.inr ⟨5, hc⟩)
  refine ⟨⟨5, hc⟩, ha, hb, ?_⟩
  rw [hn, hqual]
  rfl


lemma mapM_compile_of_lits : ∀ (cs : List Char), (∀ c ∈ cs, isMetaCh c = false) →
    cs.mapM (fun c =>
      if c = '.' then some PatUnit.dot
      else if isMetaCh c then none
      else some (PatUnit.lit c)) = some (cs.map PatUnit.lit) := by
  intro cs
  induction cs with
  | nil => intro _; rfl
  | cons a as ih =>
    intro h
    have ha : isMetaCh a = false := h a (List.mem_cons_self a as)
    have had : a ≠ '.' := by
      intro hd
      rw [hd] at ha
      exact absurd ha (by decide)
    rw [List.mapM_cons, ih (fun c hc => h c (List.mem_cons_of_mem a hc))]
    simp [ha, had]

lemma headMatch_lits : ∀ (ns hs : List Char),
    headMatch (ns.map PatUnit.lit) hs = headEqCI ns hs := by
  intro ns
  induction ns with
  | nil => intro hs; rfl
  | cons a ns ih =>
    intro hs
    cases hs with
    | nil => rfl
    | cons b bs => simp [headMatch, headEqCI, PatUnit.matchesCh, ih bs]

lemma patSearch_lits : ∀ (ns hs : List Char),
    patSearch (ns.map PatUnit.lit) hs = substrCI ns hs := by
  intro ns hs
  induction hs with
  | nil => simp [patSearch, substrCI, headMatch_lits]
  | cons c cs ih => simp [patSearch, substrCI, headMatch_lits, ih]

/-- C8 amended: the caller-level symbol filter applies the filter
string as a case-insensitive regular expression searched anywhere in
the raw text (`str.contains` default `regex=True`); only for filter
strings free of regex metacharacters — such as the default `"BTC"` —
does this coincide with case-insensitive literal substring
containment. -/
theorem claim_C8_amended (s text : String)
    (h : ∀ c ∈ s.data, isMetaCh c = false) :
    compilePat s = some (s.data.map PatUnit.lit) ∧
    patSearch (s.data.map PatUnit.lit) text.data = substrCI s.data text.data := by
  constructor
  · unfold compilePat
    exact mapM_compile_of_lits s.data h
  · exact patSearch_lits s.data text.data

/-- C8 witness: the default filter `"BTC"` against a lower-case text. -/
theorem claim_C8_witness :
    (∀ c ∈ "BTC".data, isMetaCh c = false) ∧
    compilePat "BTC" = some ("BTC".data.map PatUnit.lit) ∧
    patSearch ("BTC".data.map PatUnit.lit) "xbtcusdt".data
      = substrCI "BTC".data "xbtcusdt".data := by
  have h : ∀ c ∈ "BTC".data, isMetaCh c = false := by decide
  obtain ⟨h1, h2⟩ := claim_C8_amended "BTC" "xbtcusdt" h
  exact ⟨h, h1, h2⟩

/-- C7 amended: with an interval-width setting that is neither 1-hour
nor 1-day the aggregation stage still parses every message and applies
the symbol filter first; only when at least one event survives does it
raise the configuration error (before resampling), and when none
survives it raises nothing at all, writing an empty output file named
after the invalid interval. -/
theorem claim_C7_amended (interval : String) (filt : Option (List PatUnit))
    (rows : List (Nat × String))
    (parsed : List (Nat × String × Option (String × ℚ × Option String)))
    (hparse : parseRows rows = .ok parsed)
    (h1 : interval.toUpper ≠ "1H") (h2 : interval.toUpper ≠ "1D") :
    (survivors filt parsed = [] →
      aggMain interval filt rows
        = .ok ("liqs_" ++ interval.toUpper ++ ".csv", [])) ∧
    (survivors filt parsed ≠ [] →
      aggMain interval filt rows = .error "AGG_INTERVAL must be 1H or 1D") := by
  unfold aggMain
  rw [hparse]
  constructor
  · intro hs
    simp [hs]
  · intro hs
    simp [hs, h1, h2]

/-- C7 witness: the invalid interval `"2H"` with no input rows. -/
theorem claim_C7_witness :
    parseRows [] = .ok [] ∧
    "2H".toUpper ≠ "1H" ∧ "2H".toUpper ≠ "1D" ∧
    survivors none [] = [] ∧
    aggMain "2H" none [] = .ok ("liqs_" ++ "2H".toUpper ++ ".csv", []) := by
  have hup : "2H".toUpper = "2H" := by with_unfolding_all rfl
  have h1 : "2H".toUpper ≠ "1H" := by rw [hup]; decide
  have h2 : "2H".toUpper ≠ "1D" := by rw [hup]; decide
  exact ⟨rfl, h1, h2, rfl,
    (claim_C7_amended "2H" none [] [] rfl h1 h2).1 rfl⟩


/-- C4 amended: `parse_row` emits an event exactly when the
case-insensitive side phrase matches and `AMOUNT_RE` matches with a
capture that is not all commas (a digit in the integer run, or a
fraction); lacking either pattern it rejects — but when both patterns
match and the capture strips to the empty string, `float("")` raises
`ValueError` instead of rejecting. -/
theorem claim_C4_amended (text : String) :
    ((∃ ev, parse_row text = .ok (some ev)) ↔
      (sideSearch text.data ≠ none ∧
       ∃ run frac, amountSearch text.data = some (run, frac) ∧
         (run.filter (fun c => c ≠ ',') ≠ [] ∨ frac ≠ none))) ∧
    (parse_row text = .error "could not convert string to float" ↔
      (sideSearch text.data ≠ none ∧
       ∃ run, amountSearch text.data = some (run, none) ∧
         run.filter (fun c => c ≠ ',') = [])) := by
  by_cases ht : text = ""
  · subst ht
    have hside : sideSearch "".data = none := rfl
    have hpr : parse_row "" = .ok none := rfl
    constructor
    · constructor
      · rintro ⟨ev, hev⟩
        rw [hpr] at hev
        simp at hev
      · rintro ⟨hs, _⟩
        exact absurd hside hs
    · constructor
      · intro hev
        rw [hpr] at hev
        simp at hev
      · rintro ⟨hs, _⟩
        exact absurd hside hs
  · cases hs : sideSearch text.data with
    | none =>
      have hpr : parse_row text = .ok none := by
        unfold parse_row
        rw [if_neg ht, hs]
      constructor
      · constructor
        · rintro ⟨ev, hev⟩
          rw [hpr] at hev
          simp at hev
        · rintro ⟨hne, _⟩
          exact absurd rfl hne
      · constructor
        · intro hev
          rw [hpr] at hev
          simp at hev
        · rintro ⟨hne, _⟩
          exact absurd rfl hne
    | some side =>
      have hsne : sideSearch text.data ≠ none := by
        rw [hs]
        exact Option.some_ne_none side
      cases ha : amountSearch text.data with
      | none =>
        have hpr : parse_row text = .ok none := by
          unfold parse_row
          rw [if_neg ht, hs, ha]
        constructor
        · constructor
          · rintro ⟨ev, hev⟩
            rw [hpr] at hev
            simp at hev
          · rintro ⟨_, run, frac, hrf, _⟩
            exact absurd hrf (by simp)
        · constructor
          · intro hev
            rw [hpr] at hev
            simp at hev
          · rintro ⟨_, run, hrf, _⟩
            exact absurd hrf (by simp)
      | some rf =>
        obtain ⟨run, frac⟩ := rf
        have hpr : parse_row text =
            match floatOfCapture run frac with
            | .error e => .error e
            | .ok amt => .ok (some (side, amt, symbolSearch text.data)) := by
          unfold parse_row
          rw [if_neg ht, hs, ha]
        cases frac with
        | some ds =>
          have hv : parse_row text = .ok (some (side,
              mkRat (Int.ofNat (natFromDigits (run.filter (fun c => c ≠ ','))
                * Nat.pow 10 ds.length + natFromDigits ds)) (Nat.pow 10 ds.length),
              symbolSearch text.data)) := by
            rw [hpr]
            rfl
          constructor
          · constructor
            · intro _
              exact ⟨Option.some_ne_none side, run, some ds, rfl, Or.inr (by simp)⟩
            · intro _
              exact ⟨_, hv⟩
          · constructor
            · intro hev
              rw [hv] at hev
              simp at hev
            · rintro ⟨_, run2, hrf2, _⟩
              simp at hrf2
        | none =>
          by_cases hd : run.filter (fun c => c ≠ ',') = []
          · have hv : parse_row text
                = .error "could not convert string to float" := by
              rw [hpr]
              simp only [floatOfCapture, hd]
              rfl
            constructor
            · constructor
              · rintro ⟨ev, hev⟩
                rw [hv] at hev
                simp at hev
              · rintro ⟨_, run2, frac2, hrf2, hor⟩
                injection hrf2 with hrf2
                injection hrf2 with hr2 hf2
                subst hr2
                subst hf2
                rcases hor with hor | hor
                · exact absurd hd hor
                · exact absurd rfl hor
            · constructor
              · intro _
                exact ⟨Option.some_ne_none side, run, rfl, hd⟩
              · intro _
                exact hv
          · have hv : parse_row text = .ok (some (side,
                mkRat (Int.ofNat (natFromDigits (run.filter (fun c => c ≠ ',')))) 1,
                symbolSearch text.data)) := by
              rw [hpr]
              simp only [floatOfCapture, if_neg hd]
            constructor
            · constructor
              · intro _
                exact ⟨Option.some_ne_none side, run, none, rfl, Or.inl hd⟩
              · intro _
                exact ⟨_, hv⟩
            · constructor
              · intro hev
                rw [hv] at hev
                simp at hev
              · rintro ⟨_, run2, hrf2, hd2⟩
                injection hrf2 with hrf2
                injection hrf2 with hr2 hf2
                subst hr2
                exact absurd hd2 hd


lemma mem_mergeD (a : Nat) : ∀ (xs ys : List Nat),
    a ∈ mergeD xs ys ↔ a ∈ xs ∨ a ∈ ys := by
  intro xs ys
  induction xs, ys using mergeD.induct with
  | case1 ys => simp [mergeD]
  | case2 xs => simp [mergeD]
  | case3 x xs y ys h ih =>
    rw [mergeD]
    simp only [if_pos h, List.mem_cons, ih]
    tauto
  | case4 x xs y ys h h2 ih =>
    rw [mergeD]
    simp only [if_neg h, if_pos h2, List.mem_cons, ih]
    tauto
  | case5 x xs y ys h h2 ih =>
    rw [mergeD]
    simp only [if_neg h, if_neg h2, List.mem_cons, ih]
    have hxy : x = y := Nat.le_antisymm (Nat.le_of_not_lt h2) (Nat.le_of_not_lt h)
    subst hxy
    tauto

lemma minL_le : ∀ (xs : List Nat) (x : Nat), ∀ y ∈ x :: xs, minL x xs ≤ y := by
  intro xs
  induction xs with
  | nil =>
    intro x y hy
    rcases List.mem_singleton.mp hy with rfl
    exact Nat.le_refl _
  | cons a as ih =>
    intro x y hy
    rcases List.mem_cons.mp hy with rfl | hy2
    · calc minL y (a :: as) = minL (Nat.min y a) as := rfl
        _ ≤ Nat.min y a := ih _ _ (List.mem_cons_self _ _)
        _ ≤ y := Nat.min_le_left _ _
    · rcases List.mem_cons.mp hy2 with rfl | hy3
      · calc minL x (y :: as) = minL (Nat.min x y) as := rfl
          _ ≤ Nat.min x y := ih _ _ (List.mem_cons_self _ _)
          _ ≤ y := Nat.min_le_right _ _
      · exact ih (Nat.min x a) y (List.mem_cons_of_mem _ hy3)

lemma minL_mem : ∀ (xs : List Nat) (x : Nat), minL x xs ∈ x :: xs := by
  intro xs
  induction xs with
  | nil => intro x; exact List.mem_singleton.mpr rfl
  | cons a as ih =>
    intro x
    have h := ih (Nat.min x a)
    have hm : minL x (a :: as) = minL (Nat.min x a) as := rfl
    rw [hm]
    rcases List.mem_cons.mp h with he | hmem
    · rw [he]
      show (if x ≤ a then x else a) ∈ x :: a :: as
      by_cases hc : x ≤ a
      · rw [if_pos hc]
        exact List.mem_cons_self _ _
      · rw [if_neg hc]
        exact List.mem_cons_of_mem _ (List.mem_cons_self _ _)
    · exact List.mem_cons_of_mem _ (List.mem_cons_of_mem _ hmem)

lemma le_maxL : ∀ (xs : List Nat) (x : Nat), ∀ y ∈ x :: xs, y ≤ maxL x xs := by
  intro xs
  induction xs with
  | nil =>
    intro x y hy
    rcases List.mem_singleton.mp hy with rfl
    exact Nat.le_refl _
  | cons a as ih =>
    intro x y hy
    rcases List.mem_cons.mp hy with rfl | hy2
    · calc y ≤ Nat.max y a := Nat.le_max_left _ _
        _ ≤ maxL (Nat.max y a) as := ih _ _ (List.mem_cons_self _ _)
        _ = maxL y (a :: as) := rfl
    · rcases List.mem_cons.mp hy2 with rfl | hy3
      · calc y ≤ Nat.max x y := Nat.le_max_right _ _
          _ ≤ maxL (Nat.max x y) as := ih _ _ (List.mem_cons_self _ _)
          _ = maxL x (y :: as) := rfl
      · exact ih (Nat.max x a) y (List.mem_cons_of_mem _ hy3)

lemma maxL_mem : ∀ (xs : List Nat) (x : Nat), maxL x xs ∈ x :: xs := by
  intro xs
  induction xs with
  | nil => intro x; exact List.mem_singleton.mpr rfl
  | cons a as ih =>
    intro x
    have h := ih (Nat.max x a)
    have hm : maxL x (a :: as) = maxL (Nat.max x a) as := rfl
    rw [hm]
    rcases List.mem_cons.mp h with he | hmem
    · rw [he]
      show (if x ≤ a then a else x) ∈ x :: a :: as
      by_cases hc : x ≤ a
      · rw [if_pos hc]
        exact List.mem_cons_of_mem _ (List.mem_cons_self _ _)
      · rw [if_neg hc]
        exact List.mem_cons_self _ _
    · exact List.mem_cons_of_mem _ (List.mem_cons_of_mem _ hmem)

lemma mem_binRange {w qlo qhi b : Nat} (hw : 0 < w) (hq : qlo ≤ qhi) :
    (b ∈ (List.range ((w * qhi - w * qlo) / w + 1)).map (fun i => w * qlo + w * i)
      ↔ ∃ q, qlo ≤ q ∧ q ≤ qhi ∧ b = w * q) := by
  have hsub : w * qhi - w * qlo = w * (qhi - qlo) := by
    have hkey : w * qlo + w * (qhi - qlo) = w * qhi := by
      rw [← Nat.mul_add]
      congr 1
      omega
    omega
  have hdiv : (w * qhi - w * qlo) / w = qhi - qlo := by
    rw [hsub, Nat.mul_div_cancel_left _ hw]
  rw [hdiv]
  constructor
  · intro hb
    simp only [List.mem_map, List.mem_range] at hb
    obtain ⟨i, hi, rfl⟩ := hb
    refine ⟨qlo + i, Nat.le_add_right _ _, by omega, by ring⟩
  · rintro ⟨q, h1, h2, rfl⟩
    simp only [List.mem_map, List.mem_range]
    refine ⟨q - qlo, by omega, ?_⟩
    rw [← Nat.mul_add]
    congr 1
    omega

lemma mem_spanBins {w : Nat} (hw : 0 < w) (t : Nat) (r : List Nat) (b : Nat) :
    b ∈ spanBins w (t :: r) ↔
      ∃ q, minL t r / w ≤ q ∧ q ≤ maxL t r / w ∧ b = w * q := by
  have hmM : minL t r / w ≤ maxL t r / w :=
    Nat.div_le_div_right (le_maxL r t _ (minL_mem r t))
  have hsh : spanBins w (t :: r)
      = (List.range ((w * (maxL t r / w) - w * (minL t r / w)) / w + 1)).map
          (fun i => w * (minL t r / w) + w * i) := rfl
  rw [hsh]
  exact mem_binRange hw hmM

lemma gap_bounded {w : Nat} (hw : 0 < w) (side : List Ev) (b : Nat)
    (hb : b ∈ spanBins w (side.map (fun e => e.t)))
    (hempty : inBucket w b side = []) :
    ∃ b1 b2, b1 ∈ spanBins w (side.map (fun e => e.t)) ∧
      b2 ∈ spanBins w (side.map (fun e => e.t)) ∧
      b1 < b ∧ b < b2 ∧
      inBucket w b1 side ≠ [] ∧ inBucket w b2 side ≠ [] := by
  cases hm : side.map (fun e => e.t) with
  | nil =>
    rw [hm] at hb
    simp [spanBins] at hb
  | cons t0 ts =>
    rw [hm, mem_spanBins hw] at hb
    obtain ⟨q, hq1, hq2, rfl⟩ := hb
    have hlohi : minL t0 ts / w ≤ maxL t0 ts / w :=
      Nat.div_le_div_right (le_maxL ts t0 _ (minL_mem ts t0))
    have hminmem : minL t0 ts ∈ side.map (fun e => e.t) := by
      rw [hm]
      exact minL_mem ts t0
    obtain ⟨emin, hemin, hemint⟩ := List.mem_map.mp hminmem
    have hmaxmem : maxL t0 ts ∈ side.map (fun e => e.t) := by
      rw [hm]
      exact maxL_mem ts t0
    obtain ⟨emax, hemax, hemaxt⟩ := List.mem_map.mp hmaxmem
    have hminbuck : emin ∈ inBucket w (w * (minL t0 ts / w)) side := by
      apply List.mem_filter.mpr
      refine ⟨hemin, ?_⟩
      simp [floorW, hemint]
    have hmaxbuck : emax ∈ inBucket w (w * (maxL t0 ts / w)) side := by
      apply List.mem_filter.mpr
      refine ⟨hemax, ?_⟩
      simp [floorW, hemaxt]
    have hne1 : minL t0 ts / w ≠ q := by
      intro heq
      rw [heq, hempty] at hminbuck
      exact absurd hminbuck (List.not_mem_nil emin)
    have hne2 : q ≠ maxL t0 ts / w := by
      intro heq
      rw [← heq, hempty] at hmaxbuck
      exact absurd hmaxbuck (List.not_mem_nil emax)
    refine ⟨w * (minL t0 ts / w), w * (maxL t0 ts / w), ?_, ?_, ?_, ?_, ?_, ?_⟩
    · rw [mem_spanBins hw]
      exact ⟨minL t0 ts / w, Nat.le_refl _, hlohi, rfl⟩
    · rw [mem_spanBins hw]
      exact ⟨maxL t0 ts / w, hlohi, Nat.le_refl _, rfl⟩
    · exact mul_lt_mul_of_pos_left (lt_of_le_of_ne hq1 hne1) hw
    · exact mul_lt_mul_of_pos_left (lt_of_le_of_ne hq2 hne2) hw
    · exact List.ne_nil_of_mem hminbuck
    · exact List.ne_nil_of_mem hmaxbuck

/-- C2 amended: rows with `long_count + short_count = 0` do occur —
the per-side resampling zero-fills every empty bucket between a side's
first and last event — but only as interior gap rows: every zero rows
lies strictly between two output rows that each contain at least one
event. -/
theorem claim_C2_amended (w : Nat) (hw : 0 < w) (evs : List Ev)
    (r : OutRow) (hr : r ∈ aggregate w evs)
    (hzero : r.long_count + r.short_count = 0) :
    ∃ r1 ∈ aggregate w evs, ∃ r2 ∈ aggregate w evs,
      r1.t < r.t ∧ r.t < r2.t ∧
      0 < r1.long_count + r1.short_count ∧
      0 < r2.long_count + r2.short_count := by
  simp only [aggregate] at hr ⊢
  obtain ⟨b, hbmem, rfl⟩ := List.mem_map.mp hr
  set longs := evs.filter (fun e => e.side = "long") with hlongsdef
  set shorts := evs.filter (fun e => e.side = "short") with hshortsdef
  simp only [bucketRow] at hzero
  have hl0 : inBucket w b longs = [] := List.length_eq_zero.mp (by omega)
  have hs0 : inBucket w b shorts = [] := List.length_eq_zero.mp (by omega)
  rcases (mem_mergeD b _ _).mp hbmem with hbL | hbS
  · obtain ⟨b1, b2, hsp1, hsp2, hlt1, hlt2, hne1, hne2⟩ :=
      gap_bounded hw longs b hbL hl0
    refine ⟨bucketRow w longs shorts b1,
      List.mem_map_of_mem _ ((mem_mergeD b1 _ _).mpr (Or.inl hsp1)),
      bucketRow w longs shorts b2,
      List.mem_map_of_mem _ ((mem_mergeD b2 _ _).mpr (Or.inl hsp2)),
      hlt1, hlt2, ?_, ?_⟩
    · have hpos := List.length_pos.mpr hne1
      simp only [bucketRow]
      omega
    · have hpos := List.length_pos.mpr hne2
      simp only [bucketRow]
      omega
  · obtain ⟨b1, b2, hsp1, hsp2, hlt1, hlt2, hne1, hne2⟩ :=
      gap_bounded hw shorts b hbS hs0
    refine ⟨bucketRow w longs shorts b1,
      List.mem_map_of_mem _ ((mem_mergeD b1 _ _).mpr (Or.inr hsp1)),
      bucketRow w longs shorts b2,
      List.mem_map_of_mem _ ((mem_mergeD b2 _ _).mpr (Or.inr hsp2)),
      hlt1, hlt2, ?_, ?_⟩
    · have hpos := List.length_pos.mpr hne1
      simp only [bucketRow]
      omega
    · have hpos := List.length_pos.mpr hne2
      simp only [bucketRow]
      omega

/-- C2 witness: the 11:00 zero row of the gap scenario is strictly
between the two populated rows. -/
theorem claim_C2_witness :
    0 < 3600 ∧
    (⟨39600, 0, 0, 0, 0⟩ : OutRow) ∈
      aggregate 3600 [⟨36300, "long", 100⟩, ⟨45600, "long", 50⟩] ∧
    (⟨39600, 0, 0, 0, 0⟩ : OutRow).long_count
      + (⟨39600, 0, 0, 0, 0⟩ : OutRow).short_count = 0 ∧
    (∃ r1 ∈ aggregate 3600 [⟨36300, "long", 100⟩, ⟨45600, "long", 50⟩],
     ∃ r2 ∈ aggregate 3600 [⟨36300, "long", 100⟩, ⟨45600, "long", 50⟩],
       r1.t < (⟨39600, 0, 0, 0, 0⟩ : OutRow).t ∧
       (⟨39600, 0, 0, 0, 0⟩ : OutRow).t < r2.t ∧
       0 < r1.long_count + r1.short_count ∧
       0 < r2.long_count + r2.short_count) := by
  have hagg : aggregate 3600 [⟨36300, "long", 100⟩, ⟨45600, "long", 50⟩]
      = [⟨36000, 100, 0, 1, 0⟩, ⟨39600, 0, 0, 0, 0⟩, ⟨43200, 50, 0, 1, 0⟩] := by
    with_unfolding_all rfl
  have hmem : (⟨39600, 0, 0, 0, 0⟩ : OutRow) ∈
      aggregate 3600 [⟨36300, "long", 100⟩, ⟨45600, "long", 50⟩] := by
    rw [hagg]
    exact List.mem_cons_of_mem _ (List.mem_cons_self _ _)
  exact ⟨by decide, hmem, rfl,
    claim_C2_amended 3600 (by decide) _ ⟨39600, 0, 0, 0, 0⟩ hmem rfl⟩


/-- C4 witness: the amended characterisation instantiated at a plain
accepted message. -/
theorem claim_C4_witness :
    ∃ ev, parse_row "Liquidated Long: Buy $5" = .ok (some ev) :=
  (claim_C4_amended "Liquidated Long: Buy $5").1.mpr
    ⟨by with_unfolding_all decide, ['5'], none, by with_unfolding_all rfl,
     Or.inl (by decide)⟩


end Liq



